import Mathlib

/-!
Verification of the casino minesweeper engine and wagering ledger
(`Casino_agurez_source.py`).

Shallow embedding conventions:
* Python ints are `Int`/`Nat`; Python floats (money, multipliers) are modelled
  as exact rationals `ℚ` (all concrete values appearing in the claims are
  exactly representable, so the arithmetic agrees with the source).
* The board, revealed and flagged matrices are total functions
  `Nat → Nat → _`; every access in the source is guarded by
  `_is_valid_position`, so only in-range points matter.
* `random.sample` in `_place_mines` is modelled by an arbitrary parameter
  `positions` subject to `validSample` (distinct, in-bounds, right length);
  `random.choice` in `_ensure_safe_first_click` is modelled by a `choice`
  parameter subject to `choiceOK` (a member of `safe_spots` when that list is
  nonempty).
* The recursive `_flood_fill` is given explicit fuel `rows*cols + 1`; the
  Python recursion never nests deeper than one level per newly revealed cell
  plus one, so this fuel reproduces the source behaviour exactly.  All
  invariant lemmas below are proved for arbitrary fuel.
-/

/-- Configuration constant `INITIAL_BANKROLL = 100.0`. -/
def INITIAL_BANKROLL : ℚ := 100.0

/-- Configuration constant `MIN_BET = 1.0`. -/
def MIN_BET : ℚ := 1.0

/-- Configuration constant `MAX_BET = 1000.0`. -/
def MAX_BET : ℚ := 1000.0

/-- The three difficulty names (the keys of the `DIFFICULTIES` dict). -/
inductive Difficulty : Type
  | easy
  | medium
  | hard
deriving DecidableEq

/-- One entry of the `DIFFICULTIES` dict. -/
structure Settings : Type where
  rows : Nat
  cols : Nat
  mines : Nat
  multiplier : ℚ
deriving DecidableEq

/-- The `DIFFICULTIES` configuration table. -/
def DIFFICULTIES : Difficulty → Settings
  | .easy => { rows := 9, cols := 9, mines := 10, multiplier := 1.5 }
  | .medium => { rows := 16, cols := 16, mines := 40, multiplier := 2.0 }
  | .hard => { rows := 16, cols := 30, mines := 99, multiplier := 2.5 }

/-- State of `MinesweeperGame`: grid dimensions and mine count copied from the
settings, the `board` matrix (−1 is the mine sentinel, otherwise the adjacency
count), the `revealed` and `flagged` matrices and the session flags. -/
structure Game : Type where
  rows : Nat
  cols : Nat
  mines : Nat
  board : Nat → Nat → Int
  revealed : Nat → Nat → Bool
  flagged : Nat → Nat → Bool
  game_over : Bool
  game_won : Bool
  first_click : Bool

/-- Embeds `MinesweeperGame._is_valid_position`. -/
def is_valid_position (g : Game) (row col : Int) : Bool :=
  decide (0 ≤ row) && decide (row < (g.rows : Int)) &&
  decide (0 ≤ col) && decide (col < (g.cols : Int))

/-- The eight neighbour offsets scanned by the source's
`for dr in [-1,0,1]: for dc in [-1,0,1]:` loops, with `(0,0)` skipped. -/
def neighborOffsets : List (Int × Int) :=
  [(-1, -1), (-1, 0), (-1, 1), (0, -1), (0, 1), (1, -1), (1, 0), (1, 1)]

/-- The inner loop of `MinesweeperGame._calculate_numbers`: the number of
in-bounds neighbours of `(r, c)` holding a mine. -/
def countAdjacentMines (g : Game) (r c : Nat) : Int :=
  ((neighborOffsets.filter fun d =>
      decide (0 ≤ (r : Int) + d.1) && decide ((r : Int) + d.1 < (g.rows : Int)) &&
      decide (0 ≤ (c : Int) + d.2) && decide ((c : Int) + d.2 < (g.cols : Int)) &&
      decide (g.board ((r : Int) + d.1).toNat ((c : Int) + d.2).toNat = -1)).length : Int)

/-- Embeds `MinesweeperGame._calculate_numbers`.  The source overwrites non-mine
cells in place while scanning, but overwritten values are adjacency counts
(never −1) of cells that were not mines before either, so the in-place loop is
equivalent to this simultaneous update. -/
def calculate_numbers (g : Game) : Game :=
  { g with board := fun r c =>
      if r < g.rows ∧ c < g.cols then
        if g.board r c = -1 then -1 else countAdjacentMines g r c
      else g.board r c }

/-- Embeds `MinesweeperGame._place_mines`, with the output of `random.sample`
supplied as the `positions` parameter: each sampled cell is set to −1. -/
def place_mines (g : Game) (positions : List (Nat × Nat)) : Game :=
  { g with board := fun r c => if (r, c) ∈ positions then -1 else g.board r c }

/-- Constraint satisfied by every possible output of
`random.sample([(r,c) ...], mines)`: distinct in-bounds cells, `mines` many. -/
def validSample (s : Settings) (positions : List (Nat × Nat)) : Prop :=
  positions.Nodup ∧ positions.length = s.mines ∧
    ∀ p ∈ positions, p.1 < s.rows ∧ p.2 < s.cols

/-- Embeds `MinesweeperGame.__init__(difficulty)` (with the sampled mine positions
as a parameter): fresh matrices, flags cleared, then `_place_mines` and
`_calculate_numbers`. -/
def initGame (d : Difficulty) (positions : List (Nat × Nat)) : Game :=
  calculate_numbers (place_mines
    { rows := (DIFFICULTIES d).rows
      cols := (DIFFICULTIES d).cols
      mines := (DIFFICULTIES d).mines
      board := fun _ _ => 0
      revealed := fun _ _ => false
      flagged := fun _ _ => false
      game_over := false
      game_won := false
      first_click := true } positions)

/-- The statement `self.revealed[row][col] = True`. -/
def reveal_mark (g : Game) (row col : Int) : Game :=
  { g with revealed := fun i j =>
      if i = row.toNat ∧ j = col.toNat then true else g.revealed i j }

/-- Embeds `MinesweeperGame._flood_fill`, with explicit fuel (see the header note).
Marking a cell revealed does not change `board`, so testing `g.board` after
`reveal_mark` matches the source, which tests `self.board[row][col]` after
setting `self.revealed[row][col]`. -/
def flood_fill : Nat → Game → Int → Int → Game
  | 0, g, _, _ => g
  | fuel + 1, g, row, col =>
    if is_valid_position g row col = false ∨ g.revealed row.toNat col.toNat = true then g
    else if g.board row.toNat col.toNat = 0 then
      neighborOffsets.foldl (fun a d => flood_fill fuel a (row + d.1) (col + d.2))
        (reveal_mark g row col)
    else reveal_mark g row col

/-- The cells `(r, c)` with `r in range(rows)`, `c in range(cols)`, as a
finite set; used to count over the grid the way the source's nested loops do. -/
def cellRange (g : Game) : Finset (Nat × Nat) :=
  Finset.range g.rows ×ˢ Finset.range g.cols

/-- The `revealed_count` computed by `MinesweeperGame._check_win_condition`. -/
def revealedCount (g : Game) : Nat :=
  ((cellRange g).filter fun p => g.revealed p.1 p.2 = true).card

/-- The number of cells of the grid holding the mine sentinel. -/
def mineCells (g : Game) : Nat :=
  ((cellRange g).filter fun p => g.board p.1 p.2 = -1).card

/-- Embeds `MinesweeperGame._check_win_condition`:
`safe_cells = rows*cols - mines`; win when `revealed_count == safe_cells`. -/
def check_win_condition (g : Game) : Game :=
  if (revealedCount g : Int) = (g.rows : Int) * (g.cols : Int) - (g.mines : Int) then
    { g with game_over := true, game_won := true }
  else g

/-- The `safe_spots` list comprehension of
`MinesweeperGame._ensure_safe_first_click`: in row-major order, all cells that
are not mines and differ from the clicked cell. -/
def safe_spots (g : Game) (row col : Nat) : List (Nat × Nat) :=
  (((List.range g.rows).map fun r => (List.range g.cols).map fun c => (r, c)).flatten).filter
    fun p => decide (g.board p.1 p.2 ≠ -1) && decide (p.1 ≠ row ∨ p.2 ≠ col)

/-- Embeds `MinesweeperGame._ensure_safe_first_click`, with the output of
`random.choice(safe_spots)` supplied as `choice`.  The source writes
`board[row][col] = 0` then `board[new_r][new_c] = -1` (last write wins) and
recomputes all numbers. -/
def ensure_safe_first_click (g : Game) (row col : Nat) (choice : Nat × Nat) : Game :=
  if g.board row col = -1 then
    if safe_spots g row col = [] then g
    else
      calculate_numbers
        { g with board := fun r c =>
            if (r, c) = choice then -1
            else if (r, c) = (row, col) then 0
            else g.board r c }
  else g

/-- Constraint satisfied by every possible output of
`random.choice(safe_spots)`: membership, whenever the list is nonempty. -/
def choiceOK (g : Game) (row col : Nat) (choice : Nat × Nat) : Prop :=
  safe_spots g row col = [] ∨ choice ∈ safe_spots g row col

/-- The state of `MinesweeperGame.reveal_cell` right after the
first-click-safety block (the relocation fires only on a first click that hit
a mine) and the unconditional `self.first_click = False`. -/
def after_safety (g : Game) (row col : Int) (choice : Nat × Nat) : Game :=
  { (if g.first_click = true ∧ g.board row.toNat col.toNat = -1 then
      ensure_safe_first_click g row.toNat col.toNat choice
    else g) with first_click := false }

/-- Embeds `MinesweeperGame.reveal_cell`: returns the changed flag and the new
state.  Guards, first-click safety, the mine branch (sets `game_over`,
clears `game_won`), otherwise flood fill followed by the win check. -/
def reveal_cell (g : Game) (row col : Int) (choice : Nat × Nat) : Bool × Game :=
  if g.game_over = true ∨ is_valid_position g row col = false then (false, g)
  else if g.revealed row.toNat col.toNat = true ∨ g.flagged row.toNat col.toNat = true then
    (false, g)
  else if (after_safety g row col choice).board row.toNat col.toNat = -1 then
    (true, { after_safety g row col choice with game_over := true, game_won := false })
  else
    (true, check_win_condition
      (flood_fill (g.rows * g.cols + 1) (after_safety g row col choice) row col))

/-- Embeds `MinesweeperGame.toggle_flag`: same terminal/bounds guard as reveal, a
no-op on revealed cells, otherwise flips the flag bit. -/
def toggle_flag (g : Game) (row col : Int) : Bool × Game :=
  if g.game_over = true ∨ is_valid_position g row col = false then (false, g)
  else if g.revealed row.toNat col.toNat = true then (false, g)
  else
    (true, { g with flagged := fun i j =>
      if i = row.toNat ∧ j = col.toNat then !g.flagged i j else g.flagged i j })

/-- Embeds `MinesweeperGame.is_game_over`. -/
def is_game_over (g : Game) : Bool := g.game_over

/-- Embeds `MinesweeperGame.is_game_won`. -/
def is_game_won (g : Game) : Bool := g.game_won

instance validSampleDec (s : Settings) (ps : List (Nat × Nat)) : Decidable (validSample s ps) := by
  unfold validSample
  infer_instance

instance choiceOKDec (g : Game) (row col : Nat) (choice : Nat × Nat) :
    Decidable (choiceOK g row col choice) := by
  unfold choiceOK
  infer_instance

/-- The states a `MinesweeperGame` can be in: a fresh construction for one of
the three difficulties (any possible mine sample), followed by any sequence of
`reveal_cell` (any possible relocation choice) and `toggle_flag` calls. -/
inductive Reachable : Game → Prop where
  | start (d : Difficulty) (positions : List (Nat × Nat))
      (h : validSample (DIFFICULTIES d) positions) :
      Reachable (initGame d positions)
  | reveal (g : Game) (row col : Int) (choice : Nat × Nat) (hg : Reachable g)
      (hc : choiceOK g row.toNat col.toNat choice) :
      Reachable (reveal_cell g row col choice).2
  | flag (g : Game) (row col : Int) (hg : Reachable g) :
      Reachable (toggle_flag g row col).2

/-- All fields of two game states agree except possibly `revealed`; flood
fill only marks cells revealed, so it relates its output to its input. -/
structure SameFrame (g h : Game) : Prop where
  rows_eq : g.rows = h.rows
  cols_eq : g.cols = h.cols
  mines_eq : g.mines = h.mines
  board_eq : g.board = h.board
  flagged_eq : g.flagged = h.flagged
  over_eq : g.game_over = h.game_over
  won_eq : g.game_won = h.game_won
  first_eq : g.first_click = h.first_click

/-- Correct adjacency data: every in-range non-mine cell holds exactly its
number of in-bounds mine neighbours. -/
def adjacencyCorrect (g : Game) : Prop :=
  ∀ r c, r < g.rows → c < g.cols → g.board r c ≠ -1 →
    g.board r c = countAdjacentMines g r c

/-- The inductive invariant of reachable game states. -/
structure GameInv (g : Game) : Prop where
  mines_lt : g.mines < g.rows * g.cols
  mines_count : mineCells g = g.mines
  adj : adjacencyCorrect g
  revealed_safe : ∀ i j, g.revealed i j = true →
    i < g.rows ∧ j < g.cols ∧ g.board i j ≠ -1
  won_over : g.game_won = true → g.game_over = true
  won_iff : g.game_won = true ↔
    (revealedCount g : Int) = (g.rows : Int) * (g.cols : Int) - (g.mines : Int)
  first_unrevealed : g.first_click = true → ∀ i j, g.revealed i j = false

/-- State of `GamblingSystem`: the bankroll, the staked amount and the
difficulty recorded at bet time. -/
structure GamblingSystem : Type where
  bankroll : ℚ
  current_bet : ℚ
  current_difficulty : Difficulty
deriving DecidableEq

/-- Embeds `GamblingSystem.__init__`. -/
def GamblingSystem.new : GamblingSystem :=
  { bankroll := INITIAL_BANKROLL, current_bet := 0, current_difficulty := .easy }

/-- The result dict of `GamblingSystem.win_game`
(`outcome`, `payout`, `profit`, `new_bankroll`). -/
structure WinResult : Type where
  outcome : String
  payout : ℚ
  profit : ℚ
  new_bankroll : ℚ
deriving DecidableEq

/-- The result dict of `GamblingSystem.lose_game`
(`outcome`, `loss`, `new_bankroll`). -/
structure LoseResult : Type where
  outcome : String
  loss : ℚ
  new_bankroll : ℚ
deriving DecidableEq

/-- Embeds `GamblingSystem.place_bet`: bounds check, funds check, otherwise record
the bet and difficulty.  The bankroll is never touched here. -/
def place_bet (s : GamblingSystem) (amount : ℚ) (difficulty : Difficulty) :
    (Bool × String) × GamblingSystem :=
  if amount < MIN_BET ∨ amount > MAX_BET then
    ((false, "Bet must be between $1.0 and $1000.0"), s)
  else if amount > s.bankroll then
    ((false, "Insufficient funds"), s)
  else
    ((true, "Bet placed"),
      { s with current_bet := amount, current_difficulty := difficulty })

/-- Embeds `GamblingSystem.win_game`: credits the full `payout = bet * multiplier`
to the bankroll, reports `profit = payout - bet`, clears the bet. -/
def win_game (s : GamblingSystem) : WinResult × GamblingSystem :=
  ({ outcome := "win"
     payout := s.current_bet * (DIFFICULTIES s.current_difficulty).multiplier
     profit := s.current_bet * (DIFFICULTIES s.current_difficulty).multiplier - s.current_bet
     new_bankroll := s.bankroll + s.current_bet * (DIFFICULTIES s.current_difficulty).multiplier },
   { s with
      bankroll := s.bankroll + s.current_bet * (DIFFICULTIES s.current_difficulty).multiplier
      current_bet := 0 })

/-- Embeds `GamblingSystem.lose_game`: debits the staked amount (no clamp at zero),
clears the bet. -/
def lose_game (s : GamblingSystem) : LoseResult × GamblingSystem :=
  ({ outcome := "lose"
     loss := s.current_bet
     new_bankroll := s.bankroll - s.current_bet },
   { s with bankroll := s.bankroll - s.current_bet, current_bet := 0 })

/-- A concrete possible output of `random.sample` for the easy tier: five
mines fencing off the top-left corner and five far away. -/
def exMines : List (Nat × Nat) :=
  [(0, 2), (1, 2), (2, 2), (2, 0), (2, 1), (8, 0), (8, 2), (8, 4), (8, 6), (8, 8)]

/-- A fresh easy game with the `exMines` sample. -/
def g0ex : Game := initGame Difficulty.easy exMines

/-- State `g0ex` after flagging cell (0, 1). -/
def g1ex : Game := (toggle_flag g0ex 0 1).2

/-- State `g1ex` after revealing cell (0, 0): the flood fill reveals the four
corner cells (0,0), (0,1), (1,0), (1,1) — including the flagged (0,1). -/
def c1state : Game := (reveal_cell g1ex 0 0 (0, 1)).2

/-- State `g0ex` after revealing cell (0, 0) (no flag placed): four cells revealed,
game still running. -/
def g2c : Game := (reveal_cell g0ex 0 0 (0, 1)).2

/-- C6: for every ledger state with an active bet, `win_game` computes
`payout = activeBet * multiplier` for the tier recorded at bet time, adds the
full payout to the balance, computes `profit = payout - activeBet`, resets the
bet to 0 and returns payout, profit and the new balance. -/
theorem C6_win_game (s : GamblingSystem) (h : 0 < s.current_bet) :
    (win_game s).1.payout = s.current_bet * (DIFFICULTIES s.current_difficulty).multiplier ∧
    (win_game s).2.bankroll = s.bankroll + (win_game s).1.payout ∧
    (win_game s).1.profit = (win_game s).1.payout - s.current_bet ∧
    (win_game s).2.current_bet = 0 ∧
    (win_game s).1.new_bankroll = (win_game s).2.bankroll ∧
    (win_game s).2.current_difficulty = s.current_difficulty :=
  ⟨rfl, rfl, rfl, rfl, rfl, rfl⟩

/-- Witness for C6 at the spec's concrete input: balance 100, bet 10, easy. -/
theorem C6_witness :
    (win_game ⟨100, 10, Difficulty.easy⟩).1.payout = 15 ∧
    (win_game ⟨100, 10, Difficulty.easy⟩).2.bankroll = 115 := by
  have h := C6_win_game ⟨100, 10, Difficulty.easy⟩ (by norm_num)
  refine ⟨?_, ?_⟩
  · rw [h.1]; norm_num [DIFFICULTIES]
  · rw [h.2.1, h.1]; norm_num [DIFFICULTIES]

/-- C2 counterexample: with balance 100, bet 10 on tier easy (multiplier 1.5),
`win_game` credits the full payout 15.0, yielding newBalance 115.0 — not
105.0 = 100 + 10*(1.5-1) as the claim asserts. -/
theorem C2_counterexample :
    (win_game ⟨100, 10, Difficulty.easy⟩).2.bankroll = 115 ∧
    (win_game ⟨100, 10, Difficulty.easy⟩).1.payout = 15 ∧
    (win_game ⟨100, 10, Difficulty.easy⟩).1.profit = 5 ∧
    (win_game ⟨100, 10, Difficulty.easy⟩).2.bankroll ≠ 100 + 10 * (1.5 - 1) := by
  norm_num [win_game, DIFFICULTIES]

/-- C2 amended: `win_game` strictly increases the balance by exactly
`activeBet * multiplier` (the full payout, with no debit of the stake); the
reported profit is still `payout - activeBet`. -/
theorem C2_amended (s : GamblingSystem) (h : 0 < s.current_bet) :
    (win_game s).2.bankroll =
      s.bankroll + s.current_bet * (DIFFICULTIES s.current_difficulty).multiplier ∧
    s.bankroll < (win_game s).2.bankroll ∧
    (win_game s).1.profit =
      s.current_bet * (DIFFICULTIES s.current_difficulty).multiplier - s.current_bet := by
  have hmul : 0 < (DIFFICULTIES s.current_difficulty).multiplier := by
    cases s.current_difficulty <;> norm_num [DIFFICULTIES]
  refine ⟨rfl, ?_, rfl⟩
  have : (0 : ℚ) < s.current_bet * (DIFFICULTIES s.current_difficulty).multiplier :=
    mul_pos h hmul
  show s.bankroll < s.bankroll + s.current_bet * (DIFFICULTIES s.current_difficulty).multiplier
  linarith

/-- Witness for C2's amended statement at balance 100, bet 10, easy. -/
theorem C2_witness :
    (win_game ⟨100, 10, Difficulty.easy⟩).2.bankroll = 100 + 10 * (1.5 : ℚ) ∧
    (100 : ℚ) < (win_game ⟨100, 10, Difficulty.easy⟩).2.bankroll := by
  have h := C2_amended ⟨100, 10, Difficulty.easy⟩ (by norm_num)
  refine ⟨?_, h.2.1⟩
  rw [h.1]; norm_num [DIFFICULTIES]

/-- C3 counterexample: `win_game` and `lose_game` called with `current_bet = 0`
do not fail at all — they complete normally, returning an ordinary outcome
record with payout/loss 0 and the balance unchanged.  No `NoActiveBetError`
exists anywhere in the source. -/
theorem C3_counterexample :
    win_game ⟨100, 0, Difficulty.easy⟩ =
      ({ outcome := "win", payout := 0, profit := 0, new_bankroll := 100 },
        ⟨100, 0, Difficulty.easy⟩) ∧
    lose_game ⟨100, 0, Difficulty.easy⟩ =
      ({ outcome := "lose", loss := 0, new_bankroll := 100 },
        ⟨100, 0, Difficulty.easy⟩) := by
  constructor
  · show ((⟨"win", _, _, _⟩ : WinResult), _) = _
    norm_num [win_game, DIFFICULTIES]
  · show ((⟨"lose", _, _⟩ : LoseResult), _) = _
    norm_num [lose_game]

/-- C3 amended: settling with `activeBet == 0` silently completes (returning a
normal result with payout respectively loss 0) rather than raising any error,
and neither operation mutates the balance in that case. -/
theorem C3_amended (s : GamblingSystem) (h : s.current_bet = 0) :
    (win_game s).1.outcome = "win" ∧
    (win_game s).1.payout = 0 ∧
    (win_game s).2.bankroll = s.bankroll ∧
    (lose_game s).1.outcome = "lose" ∧
    (lose_game s).1.loss = 0 ∧
    (lose_game s).2.bankroll = s.bankroll := by
  refine ⟨rfl, ?_, ?_, rfl, h, ?_⟩
  · show s.current_bet * (DIFFICULTIES s.current_difficulty).multiplier = 0
    rw [h, zero_mul]
  · show s.bankroll + s.current_bet * (DIFFICULTIES s.current_difficulty).multiplier = s.bankroll
    rw [h, zero_mul, add_zero]
  · show s.bankroll - s.current_bet = s.bankroll
    rw [h, sub_zero]

/-- Witness for C3's amended statement at balance 100, bet 0. -/
theorem C3_witness :
    (win_game ⟨100, 0, Difficulty.easy⟩).2.bankroll = 100 ∧
    (lose_game ⟨100, 0, Difficulty.easy⟩).2.bankroll = 100 :=
  have h := C3_amended ⟨100, 0, Difficulty.easy⟩ rfl
  ⟨h.2.2.1, h.2.2.2.2.2⟩

/-- C7: `place_bet` returns a structured rejection (a false flag and a message,
never an exception) when the amount is out of the [1.0, 1000.0] bounds, or —
independently — when it exceeds the balance; on success it records the bet and
tier; in every branch the balance is unchanged. -/
theorem C7_place_bet (s : GamblingSystem) (amount : ℚ) (d : Difficulty) :
    ((amount < MIN_BET ∨ amount > MAX_BET) →
      place_bet s amount d = ((false, "Bet must be between $1.0 and $1000.0"), s)) ∧
    (¬(amount < MIN_BET ∨ amount > MAX_BET) → amount > s.bankroll →
      place_bet s amount d = ((false, "Insufficient funds"), s)) ∧
    (¬(amount < MIN_BET ∨ amount > MAX_BET) → ¬amount > s.bankroll →
      (place_bet s amount d).1.1 = true ∧
      (place_bet s amount d).2 =
        { s with current_bet := amount, current_difficulty := d }) ∧
    (place_bet s amount d).2.bankroll = s.bankroll := by
  refine ⟨?_, ?_, ?_, ?_⟩
  · intro h; unfold place_bet; rw [if_pos h]
  · intro h1 h2; unfold place_bet; rw [if_neg h1, if_pos h2]
  · intro h1 h2; unfold place_bet; rw [if_neg h1, if_neg h2]; exact ⟨rfl, rfl⟩
  · unfold place_bet
    split
    · rfl
    · split
      · rfl
      · rfl

/-- Witness for C7 at the spec's test vectors: 50 with balance 100 accepted
and recorded; 50 with balance 10 rejected; 0.5 and 1001 rejected. -/
theorem C7_witness :
    (place_bet ⟨100, 0, Difficulty.easy⟩ 50 Difficulty.easy).1.1 = true ∧
    (place_bet ⟨100, 0, Difficulty.easy⟩ 50 Difficulty.easy).2.current_bet = 50 ∧
    (place_bet ⟨10, 0, Difficulty.easy⟩ 50 Difficulty.easy).1.1 = false ∧
    (place_bet ⟨100, 0, Difficulty.easy⟩ 0.5 Difficulty.easy).1.1 = false ∧
    (place_bet ⟨100, 0, Difficulty.easy⟩ 1001 Difficulty.easy).1.1 = false := by
  have h1 := C7_place_bet ⟨100, 0, Difficulty.easy⟩ 50 Difficulty.easy
  have h2 := C7_place_bet ⟨10, 0, Difficulty.easy⟩ 50 Difficulty.easy
  have h3 := C7_place_bet ⟨100, 0, Difficulty.easy⟩ 0.5 Difficulty.easy
  have h4 := C7_place_bet ⟨100, 0, Difficulty.easy⟩ 1001 Difficulty.easy
  obtain ⟨hs, hrec⟩ := h1.2.2.1 (by norm_num [MIN_BET, MAX_BET]) (by norm_num)
  refine ⟨hs, ?_, ?_, ?_, ?_⟩
  · rw [hrec]
  · rw [h2.2.1 (by norm_num [MIN_BET, MAX_BET]) (by norm_num)]
  · rw [h3.1 (by norm_num [MIN_BET, MAX_BET])]
  · rw [h4.1 (by norm_num [MIN_BET, MAX_BET])]

/-- C8: for every ledger state with an active bet, `lose_game` decreases the
balance by exactly the former bet (strictly), resets the bet to 0 and returns
the loss and new balance; the balance is not clamped at zero and can go
negative, as at balance 5 with bet 10. -/
theorem C8_lose_game :
    (∀ s : GamblingSystem, 0 < s.current_bet →
      (lose_game s).2.bankroll = s.bankroll - s.current_bet ∧
      (lose_game s).2.bankroll < s.bankroll ∧
      (lose_game s).2.current_bet = 0 ∧
      (lose_game s).1.loss = s.current_bet ∧
      (lose_game s).1.new_bankroll = s.bankroll - s.current_bet) ∧
    (lose_game ⟨5, 10, Difficulty.easy⟩).2.bankroll = -5 := by
  constructor
  · intro s h
    refine ⟨rfl, ?_, rfl, rfl, rfl⟩
    show s.bankroll - s.current_bet < s.bankroll
    linarith
  · show (5 : ℚ) - 10 = -5
    norm_num

/-- Witness for C8's universally quantified part at balance 5, bet 10. -/
theorem C8_witness :
    (lose_game ⟨5, 10, Difficulty.easy⟩).2.bankroll < 5 ∧
    (lose_game ⟨5, 10, Difficulty.easy⟩).2.current_bet = 0 :=
  have h := C8_lose_game.1 ⟨5, 10, Difficulty.easy⟩ (by norm_num)
  ⟨h.2.1, h.2.2.1⟩

theorem sameFrame_refl (g : Game) : SameFrame g g :=
  ⟨rfl, rfl, rfl, rfl, rfl, rfl, rfl, rfl⟩

theorem sameFrame_trans {g h k : Game} (h1 : SameFrame g h) (h2 : SameFrame h k) :
    SameFrame g k :=
  ⟨h1.rows_eq.trans h2.rows_eq, h1.cols_eq.trans h2.cols_eq,
   h1.mines_eq.trans h2.mines_eq, h1.board_eq.trans h2.board_eq,
   h1.flagged_eq.trans h2.flagged_eq, h1.over_eq.trans h2.over_eq,
   h1.won_eq.trans h2.won_eq, h1.first_eq.trans h2.first_eq⟩

theorem reveal_mark_frame (g : Game) (row col : Int) :
    SameFrame (reveal_mark g row col) g :=
  ⟨rfl, rfl, rfl, rfl, rfl, rfl, rfl, rfl⟩

theorem reveal_mark_revealed (g : Game) (row col : Int) (i j : Nat) :
    (reveal_mark g row col).revealed i j =
      if i = row.toNat ∧ j = col.toNat then true else g.revealed i j := rfl

theorem foldl_sameFrame (f : Game → Int × Int → Game)
    (hf : ∀ a d, SameFrame (f a d) a) :
    ∀ (l : List (Int × Int)) (a : Game), SameFrame (l.foldl f a) a := by
  intro l
  induction l with
  | nil => intro a; exact sameFrame_refl a
  | cons d t ih =>
    intro a
    rw [List.foldl_cons]
    exact sameFrame_trans (ih (f a d)) (hf a d)

/-- Flood fill changes only the `revealed` matrix. -/
theorem ff_frame : ∀ (fuel : Nat) (g : Game) (row col : Int),
    SameFrame (flood_fill fuel g row col) g := by
  intro fuel
  induction fuel with
  | zero => intro g row col; exact sameFrame_refl g
  | succ n ih =>
    intro g row col
    rw [flood_fill]
    split
    · exact sameFrame_refl g
    · split
      · exact sameFrame_trans
          (foldl_sameFrame _ (fun a d => ih a (row + d.1) (col + d.2)) neighborOffsets _)
          (reveal_mark_frame g row col)
      · exact reveal_mark_frame g row col

/-- Flood fill never un-reveals a cell. -/
theorem ff_mono : ∀ (fuel : Nat) (g : Game) (row col : Int) (i j : Nat),
    g.revealed i j = true → (flood_fill fuel g row col).revealed i j = true := by
  intro fuel
  induction fuel with
  | zero => intro g row col i j h; exact h
  | succ n ih =>
    intro g row col i j h
    have hm : (reveal_mark g row col).revealed i j = true := by
      rw [reveal_mark_revealed]
      split
      · rfl
      · exact h
    rw [flood_fill]
    split
    · exact h
    · split
      · have key : ∀ (l : List (Int × Int)) (a : Game), a.revealed i j = true →
            (l.foldl (fun b d => flood_fill n b (row + d.1) (col + d.2)) a).revealed i j = true := by
          intro l
          induction l with
          | nil => intro a ha; exact ha
          | cons d t iht =>
            intro a ha
            rw [List.foldl_cons]
            exact iht _ (ih a (row + d.1) (col + d.2) i j ha)
        exact key neighborOffsets _ hm
      · exact hm

theorem valid_iff (g : Game) (row col : Int) :
    is_valid_position g row col = true ↔
      0 ≤ row ∧ row < (g.rows : Int) ∧ 0 ≤ col ∧ col < (g.cols : Int) := by
  simp [is_valid_position, Bool.and_eq_true, decide_eq_true_eq, and_assoc]

theorem count_nonneg (g : Game) (r c : Nat) : 0 ≤ countAdjacentMines g r c :=
  Int.natCast_nonneg _

/-- A cell whose adjacency count is zero has no in-bounds mine neighbour. -/
theorem count_zero_safe (g : Game) (r c : Nat) (h : countAdjacentMines g r c = 0)
    (d : Int × Int) (hd : d ∈ neighborOffsets)
    (h1 : 0 ≤ (r : Int) + d.1) (h2 : (r : Int) + d.1 < (g.rows : Int))
    (h3 : 0 ≤ (c : Int) + d.2) (h4 : (c : Int) + d.2 < (g.cols : Int)) :
    g.board ((r : Int) + d.1).toNat ((c : Int) + d.2).toNat ≠ -1 := by
  unfold countAdjacentMines at h
  have hlen : (neighborOffsets.filter fun d =>
      decide (0 ≤ (r : Int) + d.1) && decide ((r : Int) + d.1 < (g.rows : Int)) &&
      decide (0 ≤ (c : Int) + d.2) && decide ((c : Int) + d.2 < (g.cols : Int)) &&
      decide (g.board ((r : Int) + d.1).toNat ((c : Int) + d.2).toNat = -1)).length = 0 := by
    exact_mod_cast h
  rw [List.length_eq_zero] at hlen
  have hnone := List.filter_eq_nil_iff.mp hlen d hd
  intro hmine
  apply hnone
  simp only [Bool.and_eq_true, decide_eq_true_eq]
  exact ⟨⟨⟨⟨h1, h2⟩, h3⟩, h4⟩, hmine⟩

theorem count_congr {g h : Game} (hb : h.board = g.board) (hr : h.rows = g.rows)
    (hc : h.cols = g.cols) (r c : Nat) :
    countAdjacentMines h r c = countAdjacentMines g r c := by
  unfold countAdjacentMines
  simp only [hb, hr, hc]

theorem adjacency_of_frame {g h : Game} (hf : SameFrame h g) (ha : adjacencyCorrect g) :
    adjacencyCorrect h := by
  intro r c hr hc hm
  rw [hf.board_eq] at hm ⊢
  rw [hf.rows_eq] at hr
  rw [hf.cols_eq] at hc
  rw [count_congr hf.board_eq hf.rows_eq hf.cols_eq]
  exact ha r c hr hc hm

/-- Flood fill started on a non-mine cell of a board with correct adjacency
data reveals, beyond what was already revealed, only in-range non-mine cells. -/
theorem ff_safe : ∀ (fuel : Nat) (g : Game) (row col : Int),
    adjacencyCorrect g →
    (is_valid_position g row col = true → g.board row.toNat col.toNat ≠ -1) →
    ∀ i j, (flood_fill fuel g row col).revealed i j = true →
      g.revealed i j = true ∨ (i < g.rows ∧ j < g.cols ∧ g.board i j ≠ -1) := by
  intro fuel
  induction fuel with
  | zero => intro g row col _ _ i j h; exact Or.inl h
  | succ n ih =>
    intro g row col hadj hsafe i j
    rw [flood_fill]
    split
    · exact fun h => Or.inl h
    · rename_i hguard
      rw [not_or] at hguard
      have hv : is_valid_position g row col = true := by
        cases hx : is_valid_position g row col
        · exact absurd hx hguard.1
        · rfl
      obtain ⟨ha1, ha2, ha3, ha4⟩ := (valid_iff g row col).mp hv
      have hb : g.board row.toNat col.toNat ≠ -1 := hsafe hv
      have hmark : ∀ i j, (reveal_mark g row col).revealed i j = true →
          g.revealed i j = true ∨ (i < g.rows ∧ j < g.cols ∧ g.board i j ≠ -1) := by
        intro i j h
        rw [reveal_mark_revealed] at h
        split at h
        · rename_i hij
          right
          refine ⟨?_, ?_, ?_⟩
          · rw [hij.1]; omega
          · rw [hij.2]; omega
          · rw [hij.1, hij.2]; exact hb
        · exact Or.inl h
      split
      · rename_i hzero
        have hcount : countAdjacentMines g row.toNat col.toNat = 0 := by
          have heq := hadj row.toNat col.toNat (by omega) (by omega) hb
          rw [← heq]; exact hzero
        have key : ∀ (l : List (Int × Int)), (∀ d ∈ l, d ∈ neighborOffsets) →
            ∀ (a : Game), SameFrame a g →
            (∀ i j, a.revealed i j = true →
              g.revealed i j = true ∨ (i < g.rows ∧ j < g.cols ∧ g.board i j ≠ -1)) →
            ∀ i j,
              (l.foldl (fun b d => flood_fill n b (row + d.1) (col + d.2)) a).revealed i j = true →
              g.revealed i j = true ∨ (i < g.rows ∧ j < g.cols ∧ g.board i j ≠ -1) := by
          intro l
          induction l with
          | nil => intro _ a _ ha i j h; exact ha i j h
          | cons d t iht =>
            intro hsub a hfr ha i j h
            rw [List.foldl_cons] at h
            have hd : d ∈ neighborOffsets := hsub d (List.mem_cons_self d t)
            have hadja : adjacencyCorrect a := adjacency_of_frame hfr hadj
            have hsafea : is_valid_position a (row + d.1) (col + d.2) = true →
                a.board (row + d.1).toNat (col + d.2).toNat ≠ -1 := by
              intro hva
              obtain ⟨hb1, hb2, hb3, hb4⟩ := (valid_iff a (row + d.1) (col + d.2)).mp hva
              rw [hfr.rows_eq] at hb2
              rw [hfr.cols_eq] at hb4
              rw [hfr.board_eq]
              have hn1 : 0 ≤ (row.toNat : Int) + d.1 := by omega
              have hn2 : (row.toNat : Int) + d.1 < (g.rows : Int) := by omega
              have hn3 : 0 ≤ (col.toNat : Int) + d.2 := by omega
              have hn4 : (col.toNat : Int) + d.2 < (g.cols : Int) := by omega
              have hsafe2 := count_zero_safe g row.toNat col.toNat hcount d hd hn1 hn2 hn3 hn4
              have e1 : (row.toNat : Int) + d.1 = row + d.1 := by omega
              have e2 : (col.toNat : Int) + d.2 = col + d.2 := by omega
              rw [e1, e2] at hsafe2
              exact hsafe2
            refine iht (fun d2 hd2 => hsub d2 (List.mem_cons_of_mem d hd2)) _
              (sameFrame_trans (ff_frame n a (row + d.1) (col + d.2)) hfr) ?_ i j h
            intro i j hij
            rcases ih a (row + d.1) (col + d.2) hadja hsafea i j hij with h1 | h2
            · exact ha i j h1
            · right
              rw [hfr.rows_eq, hfr.cols_eq, hfr.board_eq] at h2
              exact h2
        exact key neighborOffsets (fun d hd => hd) (reveal_mark g row col)
          (reveal_mark_frame g row col) hmark i j
      · exact hmark i j

theorem calc_rows (g : Game) : (calculate_numbers g).rows = g.rows := rfl

theorem calc_cols (g : Game) : (calculate_numbers g).cols = g.cols := rfl

theorem calc_board (g : Game) (r c : Nat) :
    (calculate_numbers g).board r c =
      if r < g.rows ∧ c < g.cols then
        if g.board r c = -1 then -1 else countAdjacentMines g r c
      else g.board r c := rfl

/-- The `_calculate_numbers` pass never creates or removes a mine. -/
theorem calc_mine_iff (g : Game) (r c : Nat) :
    ((calculate_numbers g).board r c = -1 ↔ g.board r c = -1) := by
  rw [calc_board]
  split
  · split
    · rename_i h
      simp [h]
    · rename_i h
      constructor
      · intro hc
        have := count_nonneg g r c
        omega
      · intro hc
        exact absurd hc h
  · exact Iff.rfl

theorem calc_count_eq (g : Game) (r c : Nat) :
    countAdjacentMines (calculate_numbers g) r c = countAdjacentMines g r c := by
  unfold countAdjacentMines
  have hf : (neighborOffsets.filter fun d =>
      decide (0 ≤ (r : Int) + d.1) &&
      decide ((r : Int) + d.1 < ((calculate_numbers g).rows : Int)) &&
      decide (0 ≤ (c : Int) + d.2) &&
      decide ((c : Int) + d.2 < ((calculate_numbers g).cols : Int)) &&
      decide ((calculate_numbers g).board ((r : Int) + d.1).toNat ((c : Int) + d.2).toNat = -1))
      = (neighborOffsets.filter fun d =>
      decide (0 ≤ (r : Int) + d.1) && decide ((r : Int) + d.1 < (g.rows : Int)) &&
      decide (0 ≤ (c : Int) + d.2) && decide ((c : Int) + d.2 < (g.cols : Int)) &&
      decide (g.board ((r : Int) + d.1).toNat ((c : Int) + d.2).toNat = -1)) := by
    apply List.filter_congr
    intro d _
    rw [calc_rows, calc_cols, decide_eq_decide.mpr (calc_mine_iff g _ _)]
  rw [hf]

/-- After `_calculate_numbers`, the adjacency data is correct. -/
theorem calc_adjacency (g : Game) : adjacencyCorrect (calculate_numbers g) := by
  intro r c hr hc hm
  rw [calc_rows] at hr
  rw [calc_cols] at hc
  rw [calc_board]
  rw [if_pos ⟨hr, hc⟩]
  split
  · rename_i h
    rw [calc_board, if_pos ⟨hr, hc⟩, if_pos h] at hm
    exact absurd rfl hm
  · exact (calc_count_eq g r c).symm

theorem calc_mineCells (g : Game) : mineCells (calculate_numbers g) = mineCells g := by
  have hcr : cellRange (calculate_numbers g) = cellRange g := rfl
  have hflt : ((cellRange g).filter fun p => (calculate_numbers g).board p.1 p.2 = -1) =
      ((cellRange g).filter fun p => g.board p.1 p.2 = -1) :=
    Finset.filter_congr fun p _ => calc_mine_iff g p.1 p.2
  rw [mineCells, mineCells, hcr, hflt]

theorem mineCells_congr {g h : Game} (hb : h.board = g.board) (hrow : h.rows = g.rows)
    (hcol : h.cols = g.cols) : mineCells h = mineCells g := by
  unfold mineCells cellRange
  simp only [hb, hrow, hcol]

theorem revealedCount_congr {g h : Game} (hr : h.revealed = g.revealed)
    (hrow : h.rows = g.rows) (hcol : h.cols = g.cols) :
    revealedCount h = revealedCount g := by
  unfold revealedCount cellRange
  simp only [hr, hrow, hcol]

theorem revealedCount_zero (g : Game) (h : ∀ i j, g.revealed i j = false) :
    revealedCount g = 0 := by
  unfold revealedCount
  rw [Finset.card_eq_zero, Finset.filter_eq_empty_iff]
  intro p _
  rw [h p.1 p.2]
  simp

theorem init_board_mine (d : Difficulty) (ps : List (Nat × Nat)) (r c : Nat) :
    ((initGame d ps).board r c = -1 ↔ (r, c) ∈ ps) := by
  unfold initGame
  rw [calc_mine_iff]
  show (if (r, c) ∈ ps then (-1 : Int) else 0) = -1 ↔ _
  split
  · rename_i h
    simp [h]
  · rename_i h
    constructor
    · intro h0
      omega
    · intro hc
      exact absurd hc h

/-- A fresh board has exactly the sampled cells as mines. -/
theorem init_mineCells (d : Difficulty) (ps : List (Nat × Nat))
    (h : validSample (DIFFICULTIES d) ps) :
    mineCells (initGame d ps) = (DIFFICULTIES d).mines := by
  obtain ⟨hnd, hlen, hin⟩ := h
  have hset : ((cellRange (initGame d ps)).filter
      fun p => (initGame d ps).board p.1 p.2 = -1) = ps.toFinset := by
    ext p
    rw [Finset.mem_filter, List.mem_toFinset]
    constructor
    · intro hp
      exact (init_board_mine d ps p.1 p.2).mp hp.2
    · intro hp
      refine ⟨?_, (init_board_mine d ps p.1 p.2).mpr hp⟩
      have hbd := hin p hp
      rw [cellRange, Finset.mem_product]
      exact ⟨Finset.mem_range.mpr hbd.1, Finset.mem_range.mpr hbd.2⟩
  rw [mineCells, hset, List.toFinset_card_of_nodup hnd, hlen]

theorem mem_safe_spots (g : Game) (row col : Nat) (p : Nat × Nat) :
    p ∈ safe_spots g row col ↔
      p.1 < g.rows ∧ p.2 < g.cols ∧ g.board p.1 p.2 ≠ -1 ∧ (p.1 ≠ row ∨ p.2 ≠ col) := by
  unfold safe_spots
  rw [List.mem_filter]
  simp only [List.mem_flatten, List.mem_map, List.mem_range, Bool.and_eq_true,
    decide_eq_true_eq]
  constructor
  · rintro ⟨⟨l, ⟨r, hr, rfl⟩, hpl⟩, h1, h2⟩
    rw [List.mem_map] at hpl
    obtain ⟨c, hc, rfl⟩ := hpl
    rw [List.mem_range] at hc
    exact ⟨hr, hc, h1, h2⟩
  · rintro ⟨h1, h2, h3, h4⟩
    refine ⟨⟨(List.range g.cols).map fun c => (p.1, c), ⟨p.1, h1, rfl⟩, ?_⟩, h3, h4⟩
    rw [List.mem_map]
    exact ⟨p.2, List.mem_range.mpr h2, rfl⟩

theorem ensure_pres (g : Game) (row col : Nat) (choice : Nat × Nat) :
    (ensure_safe_first_click g row col choice).rows = g.rows ∧
    (ensure_safe_first_click g row col choice).cols = g.cols ∧
    (ensure_safe_first_click g row col choice).mines = g.mines ∧
    (ensure_safe_first_click g row col choice).revealed = g.revealed ∧
    (ensure_safe_first_click g row col choice).flagged = g.flagged ∧
    (ensure_safe_first_click g row col choice).game_over = g.game_over ∧
    (ensure_safe_first_click g row col choice).game_won = g.game_won ∧
    (ensure_safe_first_click g row col choice).first_click = g.first_click := by
  unfold ensure_safe_first_click
  split
  · split
    · exact ⟨rfl, rfl, rfl, rfl, rfl, rfl, rfl, rfl⟩
    · exact ⟨rfl, rfl, rfl, rfl, rfl, rfl, rfl, rfl⟩
  · exact ⟨rfl, rfl, rfl, rfl, rfl, rfl, rfl, rfl⟩

theorem ensure_relocate (g : Game) (row col : Nat) (choice : Nat × Nat)
    (hm : g.board row col = -1) (hch : choice ∈ safe_spots g row col) :
    ensure_safe_first_click g row col choice =
      calculate_numbers { g with board := fun r c =>
        (if (r, c) = choice then -1
          else if (r, c) = (row, col) then 0
          else g.board r c) } := by
  unfold ensure_safe_first_click
  rw [if_pos hm, if_neg (List.ne_nil_of_mem hch)]

/-- Relocating the first-click mine to a non-mine cell preserves the number
of mines on the board. -/
theorem relocate_mineCells (g : Game) (row col : Nat) (choice : Nat × Nat)
    (hrow : row < g.rows) (hcol : col < g.cols)
    (hm : g.board row col = -1) (hch : choice ∈ safe_spots g row col) :
    mineCells { g with board := fun r c =>
        (if (r, c) = choice then -1
          else if (r, c) = (row, col) then 0
          else g.board r c) } = mineCells g := by
  obtain ⟨h1, h2, h3, h4⟩ := (mem_safe_spots g row col choice).mp hch
  have hne : choice ≠ (row, col) := by
    intro h
    rcases h4 with h4 | h4
    · exact h4 (by rw [h])
    · exact h4 (by rw [h])
  have htmem : (row, col) ∈ (cellRange g).filter fun p => g.board p.1 p.2 = -1 := by
    rw [Finset.mem_filter, cellRange, Finset.mem_product]
    exact ⟨⟨Finset.mem_range.mpr hrow, Finset.mem_range.mpr hcol⟩, hm⟩
  have hset : ((cellRange g).filter fun p =>
        (if p = choice then (-1 : Int) else if p = (row, col) then 0 else g.board p.1 p.2) = -1)
      = insert choice (((cellRange g).filter fun p => g.board p.1 p.2 = -1).erase (row, col)) := by
    ext q
    rw [Finset.mem_insert, Finset.mem_erase, Finset.mem_filter, Finset.mem_filter]
    constructor
    · intro hq
      by_cases hqc : q = choice
      · exact Or.inl hqc
      · right
        rw [if_neg hqc] at hq
        by_cases hqt : q = (row, col)
        · rw [if_pos hqt] at hq
          exact absurd hq.2 (by omega)
        · rw [if_neg hqt] at hq
          exact ⟨hqt, hq⟩
    · intro hq
      rcases hq with rfl | ⟨hqt, hq1, hq2⟩
      · refine ⟨?_, by rw [if_pos rfl]⟩
        rw [cellRange, Finset.mem_product]
        exact ⟨Finset.mem_range.mpr h1, Finset.mem_range.mpr h2⟩
      · have hqc : q ≠ choice := by
          intro h
          rw [h] at hq2
          exact h3 hq2
        rw [if_neg hqc, if_neg hqt]
        exact ⟨hq1, hq2⟩
  have hcard : (((cellRange g).filter fun p => g.board p.1 p.2 = -1).erase (row, col)).card
      = ((cellRange g).filter fun p => g.board p.1 p.2 = -1).card - 1 :=
    Finset.card_erase_of_mem htmem
  have hnotmem : choice ∉ ((cellRange g).filter fun p => g.board p.1 p.2 = -1).erase (row, col) := by
    intro h
    exact h3 (Finset.mem_filter.mp (Finset.mem_erase.mp h).2).2
  have hpos : 0 < ((cellRange g).filter fun p => g.board p.1 p.2 = -1).card :=
    Finset.card_pos.mpr ⟨(row, col), htmem⟩
  have hgoal : mineCells { g with board := fun r c =>
        (if (r, c) = choice then -1
          else if (r, c) = (row, col) then 0
          else g.board r c) }
      = ((cellRange g).filter fun p =>
        (if p = choice then (-1 : Int) else if p = (row, col) then 0 else g.board p.1 p.2) = -1).card := rfl
  rw [hgoal, hset, Finset.card_insert_of_not_mem hnotmem, hcard, mineCells]
  omega

theorem won_iff_transfer {g R : Game} (hrev : R.revealed = g.revealed)
    (hrow : R.rows = g.rows) (hcol : R.cols = g.cols) (hmin : R.mines = g.mines)
    (hwonR : R.game_won = false)
    (hne : ¬((revealedCount g : Int) = (g.rows : Int) * (g.cols : Int) - (g.mines : Int))) :
    (R.game_won = true ↔
      (revealedCount R : Int) = (R.rows : Int) * (R.cols : Int) - (R.mines : Int)) := by
  rw [hwonR, revealedCount_congr hrev hrow hcol, hrow, hcol, hmin]
  constructor
  · intro hx
    exact absurd hx Bool.false_ne_true
  · intro hx
    exact absurd hx hne

/-- The first-click safety adjustment preserves the game invariant (on a
first click the board has no revealed cell, so rewriting the board is safe). -/
theorem ensure_inv (g : Game) (row col : Nat) (choice : Nat × Nat)
    (hg : GameInv g) (hfc : g.first_click = true)
    (hrow : row < g.rows) (hcol : col < g.cols)
    (hc : choiceOK g row col choice) :
    GameInv (ensure_safe_first_click g row col choice) := by
  have hrev : ∀ i j, g.revealed i j = false := hg.first_unrevealed hfc
  have hwon : g.game_won = false := by
    cases hx : g.game_won
    · rfl
    · exfalso
      have hcnt := hg.won_iff.mp hx
      rw [revealedCount_zero g hrev] at hcnt
      have hlt := hg.mines_lt
      omega
  have hne : ¬((revealedCount g : Int) = (g.rows : Int) * (g.cols : Int) - (g.mines : Int)) := by
    rw [revealedCount_zero g hrev]
    have hlt := hg.mines_lt
    omega
  unfold ensure_safe_first_click
  split
  · rename_i hm
    split
    · exact hg
    · rename_i hnil
      have hch : choice ∈ safe_spots g row col := hc.resolve_left hnil
      refine ⟨hg.mines_lt, ?_, calc_adjacency _, ?_, ?_, ?_, ?_⟩
      · rw [calc_mineCells, relocate_mineCells g row col choice hrow hcol hm hch]
        exact hg.mines_count
      · intro i j hij
        have hij2 : g.revealed i j = true := hij
        rw [hrev i j] at hij2
        exact absurd hij2 Bool.false_ne_true
      · intro hw
        exact hg.won_over hw
      · exact won_iff_transfer rfl rfl rfl rfl hwon hne
      · intro _ i j
        exact hrev i j
  · exact hg

/-- The state right after the first-click-safety block and
`self.first_click = False` keeps the invariant and all matrices except the
board, and has `first_click` cleared. -/
theorem after_safety_inv (g : Game) (row col : Int) (choice : Nat × Nat)
    (hg : GameInv g)
    (hv : is_valid_position g row col = true)
    (hc : choiceOK g row.toNat col.toNat choice) :
    GameInv (after_safety g row col choice) ∧
    (after_safety g row col choice).revealed = g.revealed ∧
    (after_safety g row col choice).rows = g.rows ∧
    (after_safety g row col choice).cols = g.cols ∧
    (after_safety g row col choice).mines = g.mines ∧
    (after_safety g row col choice).game_over = g.game_over ∧
    (after_safety g row col choice).game_won = g.game_won ∧
    (after_safety g row col choice).flagged = g.flagged ∧
    (after_safety g row col choice).first_click = false := by
  obtain ⟨hv1, hv2, hv3, hv4⟩ := (valid_iff g row col).mp hv
  unfold after_safety
  split
  · rename_i hcond
    have he := ensure_inv g row.toNat col.toNat choice hg hcond.1 (by omega) (by omega) hc
    have hp := ensure_pres g row.toNat col.toNat choice
    refine ⟨⟨he.mines_lt, he.mines_count, he.adj, he.revealed_safe, he.won_over, he.won_iff, ?_⟩,
      hp.2.2.2.1, hp.1, hp.2.1, hp.2.2.1, hp.2.2.2.2.2.1, hp.2.2.2.2.2.2.1, hp.2.2.2.2.1, rfl⟩
    intro hfalse
    exact absurd hfalse Bool.false_ne_true
  · refine ⟨⟨hg.mines_lt, hg.mines_count, hg.adj, hg.revealed_safe, hg.won_over, hg.won_iff, ?_⟩,
      rfl, rfl, rfl, rfl, rfl, rfl, rfl, rfl⟩
    intro hfalse
    exact absurd hfalse Bool.false_ne_true

/-- The `reveal_cell` operation preserves the game invariant. -/
theorem reveal_keeps_inv (g : Game) (row col : Int) (choice : Nat × Nat)
    (hc : choiceOK g row.toNat col.toNat choice) (hg : GameInv g) :
    GameInv (reveal_cell g row col choice).2 := by
  unfold reveal_cell
  by_cases h1 : g.game_over = true ∨ is_valid_position g row col = false
  · rw [if_pos h1]; exact hg
  · rw [if_neg h1]
    rw [not_or] at h1
    have hover : g.game_over = false := by
      cases hx : g.game_over
      · rfl
      · exact absurd hx h1.1
    have hv : is_valid_position g row col = true := by
      cases hx : is_valid_position g row col
      · exact absurd hx h1.2
      · rfl
    have hwon : g.game_won = false := by
      cases hx : g.game_won
      · rfl
      · rw [hg.won_over hx] at hover
        exact Bool.noConfusion hover
    have hcne : ¬((revealedCount g : Int) = (g.rows : Int) * (g.cols : Int) - (g.mines : Int)) := by
      intro hcnt
      have hx := hg.won_iff.mpr hcnt
      rw [hwon] at hx
      exact absurd hx Bool.false_ne_true
    by_cases h2 : g.revealed row.toNat col.toNat = true ∨ g.flagged row.toNat col.toNat = true
    · rw [if_pos h2]; exact hg
    · rw [if_neg h2]
      obtain ⟨hA, hArev, hArows, hAcols, hAmines, hAover, hAwon, hAflag, hAfirst⟩ :=
        after_safety_inv g row col choice hg hv hc
      have hAover2 : (after_safety g row col choice).game_over = false := by
        rw [hAover]; exact hover
      have hAwon2 : (after_safety g row col choice).game_won = false := by
        rw [hAwon]; exact hwon
      by_cases h3 : (after_safety g row col choice).board row.toNat col.toNat = -1
      · rw [if_pos h3]
        refine ⟨hA.mines_lt, hA.mines_count, hA.adj, hA.revealed_safe, fun _ => rfl, ?_, ?_⟩
        · exact won_iff_transfer hArev hArows hAcols hAmines rfl hcne
        · intro hfalse
          exact absurd hfalse Bool.false_ne_true
      · rw [if_neg h3]
        have hfr := ff_frame (g.rows * g.cols + 1) (after_safety g row col choice) row col
        have hadj3 : adjacencyCorrect
            (flood_fill (g.rows * g.cols + 1) (after_safety g row col choice) row col) :=
          adjacency_of_frame hfr hA.adj
        have hrows3 :
            (flood_fill (g.rows * g.cols + 1) (after_safety g row col choice) row col).rows
              = g.rows := hfr.rows_eq.trans hArows
        have hcols3 :
            (flood_fill (g.rows * g.cols + 1) (after_safety g row col choice) row col).cols
              = g.cols := hfr.cols_eq.trans hAcols
        have hmines3 :
            (flood_fill (g.rows * g.cols + 1) (after_safety g row col choice) row col).mines
              = g.mines := hfr.mines_eq.trans hAmines
        have hmc3 : mineCells
            (flood_fill (g.rows * g.cols + 1) (after_safety g row col choice) row col)
            = (flood_fill (g.rows * g.cols + 1) (after_safety g row col choice) row col).mines := by
          rw [mineCells_congr hfr.board_eq hfr.rows_eq hfr.cols_eq, hA.mines_count]
          exact hfr.mines_eq.symm
        have hwon3 :
            (flood_fill (g.rows * g.cols + 1) (after_safety g row col choice) row col).game_won
              = false := by
          rw [hfr.won_eq]; exact hAwon2
        have hfirst3 :
            (flood_fill (g.rows * g.cols + 1) (after_safety g row col choice) row col).first_click
              = false := by
          rw [hfr.first_eq]
          exact hAfirst
        have hsafe3 : ∀ i j,
            (flood_fill (g.rows * g.cols + 1) (after_safety g row col choice) row col).revealed i j
              = true →
            i < (flood_fill (g.rows * g.cols + 1) (after_safety g row col choice) row col).rows ∧
            j < (flood_fill (g.rows * g.cols + 1) (after_safety g row col choice) row col).cols ∧
            (flood_fill (g.rows * g.cols + 1) (after_safety g row col choice) row col).board i j
              ≠ -1 := by
          intro i j hij
          rw [hfr.rows_eq, hfr.cols_eq, hfr.board_eq]
          rcases ff_safe (g.rows * g.cols + 1) (after_safety g row col choice) row col hA.adj
              (fun _ => h3) i j hij with hcase | hcase
          · exact hA.revealed_safe i j hcase
          · exact hcase
        have hlt3 :
            (flood_fill (g.rows * g.cols + 1) (after_safety g row col choice) row col).mines <
            (flood_fill (g.rows * g.cols + 1) (after_safety g row col choice) row col).rows *
            (flood_fill (g.rows * g.cols + 1) (after_safety g row col choice) row col).cols := by
          rw [hrows3, hcols3, hmines3]
          exact hg.mines_lt
        unfold check_win_condition
        split
        · rename_i hwin
          refine ⟨hlt3, hmc3, hadj3, hsafe3, fun _ => rfl, ?_, ?_⟩
          · constructor
            · intro _
              exact hwin
            · intro _
              rfl
          · intro hfalse
            have hfalse2 :
                (flood_fill (g.rows * g.cols + 1) (after_safety g row col choice) row col).first_click
                  = true := hfalse
            rw [hfirst3] at hfalse2
            exact absurd hfalse2 Bool.false_ne_true
        · rename_i hnwin
          refine ⟨hlt3, hmc3, hadj3, hsafe3, ?_, ?_, ?_⟩
          · intro hw
            rw [hwon3] at hw
            exact absurd hw Bool.false_ne_true
          · rw [hwon3]
            constructor
            · intro hx
              exact absurd hx Bool.false_ne_true
            · intro hx
              exact absurd hx hnwin
          · intro hfalse
            rw [hfirst3] at hfalse
            exact absurd hfalse Bool.false_ne_true

/-- The `toggle_flag` operation preserves the game invariant (no component mentions the
flag matrix). -/
theorem flag_keeps_inv (g : Game) (row col : Int) (hg : GameInv g) :
    GameInv (toggle_flag g row col).2 := by
  unfold toggle_flag
  split
  · exact hg
  · split
    · exact hg
    · exact ⟨hg.mines_lt, hg.mines_count, hg.adj, hg.revealed_safe, hg.won_over, hg.won_iff,
        hg.first_unrevealed⟩

/-- A freshly constructed game satisfies the invariant. -/
theorem init_inv (d : Difficulty) (ps : List (Nat × Nat))
    (h : validSample (DIFFICULTIES d) ps) : GameInv (initGame d ps) := by
  have hrev : ∀ i j, (initGame d ps).revealed i j = false := fun i j => rfl
  have hlt : (initGame d ps).mines < (initGame d ps).rows * (initGame d ps).cols := by
    cases d
    · show (10 : Nat) < 9 * 9
      decide
    · show (40 : Nat) < 16 * 16
      decide
    · show (99 : Nat) < 16 * 30
      decide
  refine ⟨hlt, ?_, calc_adjacency _, ?_, ?_, ?_, ?_⟩
  · rw [init_mineCells d ps h]
    rfl
  · intro i j hij
    have hij2 : (initGame d ps).revealed i j = true := hij
    rw [hrev i j] at hij2
    exact absurd hij2 Bool.false_ne_true
  · intro hw
    exact absurd hw Bool.false_ne_true
  · constructor
    · intro hw
      exact absurd hw Bool.false_ne_true
    · intro hcnt
      rw [revealedCount_zero _ hrev] at hcnt
      exfalso
      omega
  · intro _ i j
    exact rfl

/-- Every reachable game state satisfies the invariant. -/
theorem reachable_inv {g : Game} (hg : Reachable g) : GameInv g := by
  induction hg with
  | start d ps h => exact init_inv d ps h
  | reveal g row col choice hg hc ih => exact reveal_keeps_inv g row col choice hc ih
  | flag g row col hg ih => exact flag_keeps_inv g row col ih

theorem after_safety_revealed (g : Game) (row col : Int) (choice : Nat × Nat) :
    (after_safety g row col choice).revealed = g.revealed := by
  unfold after_safety
  split
  · exact (ensure_pres g row.toNat col.toNat choice).2.2.2.1
  · rfl

theorem after_safety_over (g : Game) (row col : Int) (choice : Nat × Nat) :
    (after_safety g row col choice).game_over = g.game_over := by
  unfold after_safety
  split
  · exact (ensure_pres g row.toNat col.toNat choice).2.2.2.2.2.1
  · rfl

/-- When the clicked cell is a mine but the board has fewer mines than cells,
the relocation candidate list of `_ensure_safe_first_click` is nonempty. -/
theorem safe_spots_nonempty (g : Game) (row col : Nat)
    (hlt : g.mines < g.rows * g.cols) (hmc : mineCells g = g.mines)
    (hm : g.board row col = -1) :
    safe_spots g row col ≠ [] := by
  have hcr : (cellRange g).card = g.rows * g.cols := by
    rw [cellRange, Finset.card_product, Finset.card_range, Finset.card_range]
  have hsub : ((cellRange g).filter fun p => g.board p.1 p.2 = -1) ⊆ cellRange g :=
    Finset.filter_subset _ _
  have hpos : 0 < ((cellRange g).filter fun p => ¬(g.board p.1 p.2 = -1)).card := by
    rw [Finset.filter_not, Finset.card_sdiff hsub, hcr]
    have hmc2 : ((cellRange g).filter fun p => g.board p.1 p.2 = -1).card = g.mines := hmc
    rw [hmc2]
    omega
  obtain ⟨q, hq⟩ := Finset.card_pos.mp hpos
  rw [Finset.mem_filter] at hq
  obtain ⟨hq1, hq2⟩ := hq
  rw [cellRange, Finset.mem_product, Finset.mem_range, Finset.mem_range] at hq1
  have hqmem : q ∈ safe_spots g row col := by
    rw [mem_safe_spots]
    refine ⟨hq1.1, hq1.2, hq2, ?_⟩
    by_contra hcon
    push_neg at hcon
    rw [hcon.1, hcon.2] at hq2
    exact hq2 hm
  exact List.ne_nil_of_mem hqmem

/-- C5: in every reachable game state — in particular after every completed
`reveal_cell` call — `game_won` is true exactly when the revealed-cell count
equals `rows*cols - mines`; the win check runs after every successful
non-mine reveal and this equivalence is maintained. -/
theorem C5_win_iff (g : Game) (hg : Reachable g) :
    is_game_won g = true ↔
      (revealedCount g : Int) = (g.rows : Int) * (g.cols : Int) - (g.mines : Int) :=
  (reachable_inv hg).won_iff

/-- Reachability of the concrete four-cells-revealed state `g2c`. -/
theorem g2c_reachable : Reachable g2c :=
  Reachable.reveal g0ex 0 0 (0, 1)
    (Reachable.start Difficulty.easy exMines (by decide))
    (Or.inr (by decide))

/-- Witness for C5: in the reachable state `g2c` only 4 of the 71 safe cells
are revealed, so the theorem forces `game_won = false`. -/
theorem C5_witness : is_game_won g2c = false := by
  have h := C5_win_iff g2c g2c_reachable
  have hcnt : ¬((revealedCount g2c : Int) =
      (g2c.rows : Int) * (g2c.cols : Int) - (g2c.mines : Int)) := by decide
  cases hx : is_game_won g2c
  · rfl
  · exact absurd (h.mp hx) hcnt

/-- C10: in every reachable state no mine cell is marked revealed; moreover a
`reveal_cell` call that newly ends the game without a win (a mine hit)
returns changed=true and leaves the entire revealed matrix unchanged. -/
theorem C10_no_mine_revealed (g : Game) (hg : Reachable g) :
    (∀ i j, g.revealed i j = true → g.board i j ≠ -1) ∧
    (∀ (row col : Int) (choice : Nat × Nat),
      g.game_over = false →
      (reveal_cell g row col choice).2.game_over = true →
      (reveal_cell g row col choice).2.game_won = false →
      (reveal_cell g row col choice).1 = true ∧
      (reveal_cell g row col choice).2.revealed = g.revealed) := by
  have hI := reachable_inv hg
  constructor
  · intro i j hij
    exact (hI.revealed_safe i j hij).2.2
  · intro row col choice hover hover2 hwon2
    unfold reveal_cell at hover2 hwon2 ⊢
    by_cases h1 : g.game_over = true ∨ is_valid_position g row col = false
    · rw [if_pos h1] at hover2
      have hx : g.game_over = true := hover2
      rw [hover] at hx
      exact absurd hx Bool.false_ne_true
    · rw [if_neg h1] at hover2 hwon2 ⊢
      by_cases h2 : g.revealed row.toNat col.toNat = true ∨ g.flagged row.toNat col.toNat = true
      · rw [if_pos h2] at hover2
        have hx : g.game_over = true := hover2
        rw [hover] at hx
        exact absurd hx Bool.false_ne_true
      · rw [if_neg h2] at hover2 hwon2 ⊢
        by_cases h3 : (after_safety g row col choice).board row.toNat col.toNat = -1
        · rw [if_pos h3]
          exact ⟨rfl, after_safety_revealed g row col choice⟩
        · rw [if_neg h3] at hover2 hwon2
          exfalso
          unfold check_win_condition at hover2 hwon2
          by_cases h4 : (revealedCount
                (flood_fill (g.rows * g.cols + 1) (after_safety g row col choice) row col) : Int)
              = ((flood_fill (g.rows * g.cols + 1) (after_safety g row col choice) row col).rows : Int)
                * ((flood_fill (g.rows * g.cols + 1) (after_safety g row col choice) row col).cols : Int)
                - ((flood_fill (g.rows * g.cols + 1) (after_safety g row col choice) row col).mines : Int)
          · rw [if_pos h4] at hwon2
            exact Bool.noConfusion (show (true : Bool) = false from hwon2)
          · rw [if_neg h4] at hover2
            have hx : (flood_fill (g.rows * g.cols + 1)
                (after_safety g row col choice) row col).game_over = true := hover2
            rw [(ff_frame (g.rows * g.cols + 1) (after_safety g row col choice) row col).over_eq,
              after_safety_over, hover] at hx
            exact Bool.noConfusion hx

/-- Witness for C10: from the reachable state `g2c`, revealing the mine at
(0, 2) reports a change, ends the game without a win, and leaves the revealed
matrix unchanged. -/
theorem C10_witness :
    (reveal_cell g2c 0 2 (0, 1)).1 = true ∧
    (reveal_cell g2c 0 2 (0, 1)).2.revealed = g2c.revealed :=
  (C10_no_mine_revealed g2c g2c_reachable).2 0 2 (0, 1) (by decide) (by decide) (by decide)

/-- C1 counterexample: the reachable state `c1state` (easy game with sample
`exMines`, flag (0, 1), then reveal (0, 0)) has cell (0, 1) simultaneously
revealed and flagged — flood fill does not stop at flagged cells. -/
theorem C1_counterexample :
    Reachable c1state ∧ c1state.revealed 0 1 = true ∧ c1state.flagged 0 1 = true := by
  refine ⟨?_, by decide, by decide⟩
  exact Reachable.reveal g1ex 0 0 (0, 1)
    (Reachable.flag g0ex 0 1 (Reachable.start Difficulty.easy exMines (by decide)))
    (Or.inr (by decide))

/-- C1 amended: flood fill stops only at boundaries and already-revealed
cells; it never consults the flagged bit, so any valid unrevealed cell —
flagged or not — is revealed by the fill while the flag matrix is left
untouched.  Consequently a reachable state can hold a cell that is both
revealed and flagged (see the counterexample). -/
theorem C1_flood_ignores_flags (fuel : Nat) (g : Game) (row col : Int)
    (hv : is_valid_position g row col = true)
    (hr : g.revealed row.toNat col.toNat = false) :
    (flood_fill (fuel + 1) g row col).revealed row.toNat col.toNat = true ∧
    (flood_fill (fuel + 1) g row col).flagged = g.flagged := by
  refine ⟨?_, (ff_frame (fuel + 1) g row col).flagged_eq⟩
  rw [flood_fill, if_neg (by simp [hv, hr])]
  have hbase : (reveal_mark g row col).revealed row.toNat col.toNat = true := by
    rw [reveal_mark_revealed, if_pos ⟨rfl, rfl⟩]
  split
  · have key : ∀ (l : List (Int × Int)) (a : Game),
        a.revealed row.toNat col.toNat = true →
        (l.foldl (fun b d => flood_fill fuel b (row + d.1) (col + d.2)) a).revealed
          row.toNat col.toNat = true := by
      intro l
      induction l with
      | nil => intro a ha; exact ha
      | cons d t iht =>
        intro a ha
        rw [List.foldl_cons]
        exact iht _ (ff_mono fuel a (row + d.1) (col + d.2) _ _ ha)
    exact key neighborOffsets _ hbase
  · exact hbase

/-- Witness for C1's amended statement: one fill step on the flagged,
unrevealed cell (0, 1) of `g1ex` reveals it and leaves its flag set. -/
theorem C1_witness :
    (flood_fill 1 g1ex 0 1).revealed 0 1 = true ∧
    (flood_fill 1 g1ex 0 1).flagged 0 1 = true := by
  have h := C1_flood_ignores_flags 0 g1ex 0 1 (by decide) (by decide)
  refine ⟨h.1, ?_⟩
  rw [h.2]
  decide

/-- C9: a fresh board for any difficulty and any valid mine sample has
exactly `mines` mine cells (at distinct positions, by construction), correct
adjacency counts on every non-mine cell, nothing revealed, nothing flagged,
the first move still pending, and no terminal state. -/
theorem C9_fresh_board (d : Difficulty) (ps : List (Nat × Nat))
    (h : validSample (DIFFICULTIES d) ps) :
    mineCells (initGame d ps) = (initGame d ps).mines ∧
    (initGame d ps).mines = (DIFFICULTIES d).mines ∧
    adjacencyCorrect (initGame d ps) ∧
    (∀ i j, (initGame d ps).revealed i j = false) ∧
    (∀ i j, (initGame d ps).flagged i j = false) ∧
    (initGame d ps).first_click = true ∧
    (initGame d ps).game_over = false ∧
    (initGame d ps).game_won = false := by
  refine ⟨?_, rfl, calc_adjacency _, fun i j => rfl, fun i j => rfl, rfl, rfl, rfl⟩
  rw [init_mineCells d ps h]
  rfl

/-- Witness for C9 at the easy tier with the concrete sample `exMines`. -/
theorem C9_witness :
    mineCells (initGame Difficulty.easy exMines) = 10 ∧
    (initGame Difficulty.easy exMines).revealed 0 0 = false ∧
    (initGame Difficulty.easy exMines).first_click = true :=
  have h := C9_fresh_board Difficulty.easy exMines (by decide)
  ⟨h.1, h.2.2.2.1 0 0, h.2.2.2.2.2.1⟩

/-- C4: on a freshly constructed game (any of the three tiers, any valid
sample) the very first `reveal_cell` on an in-bounds cell never produces a
lost game; if the clicked cell is a mine, a relocation target always exists
(every tier has fewer mines than cells), the mine moves to the chosen cell —
which was neither a mine nor the target — the target's mine mark is cleared,
and the adjacency counts of the whole grid are recomputed correctly.
(The claim's escape clause `mineCount = rows*cols - 1` can never fire for the
three configured tiers, so the first move is unconditionally safe.) -/
theorem C4_first_move_safety (d : Difficulty) (ps : List (Nat × Nat)) (row col : Int)
    (choice : Nat × Nat)
    (hps : validSample (DIFFICULTIES d) ps)
    (hv : is_valid_position (initGame d ps) row col = true)
    (hch : choiceOK (initGame d ps) row.toNat col.toNat choice) :
    ¬((reveal_cell (initGame d ps) row col choice).2.game_over = true ∧
      (reveal_cell (initGame d ps) row col choice).2.game_won = false) ∧
    ((initGame d ps).board row.toNat col.toNat = -1 →
      (ensure_safe_first_click (initGame d ps) row.toNat col.toNat choice).board
        choice.1 choice.2 = -1 ∧
      (ensure_safe_first_click (initGame d ps) row.toNat col.toNat choice).board
        row.toNat col.toNat ≠ -1 ∧
      adjacencyCorrect (ensure_safe_first_click (initGame d ps) row.toNat col.toNat choice)) := by
  have hI := init_inv d ps hps
  have hreloc : (initGame d ps).board row.toNat col.toNat = -1 →
      (ensure_safe_first_click (initGame d ps) row.toNat col.toNat choice).board
        choice.1 choice.2 = -1 ∧
      (ensure_safe_first_click (initGame d ps) row.toNat col.toNat choice).board
        row.toNat col.toNat ≠ -1 ∧
      adjacencyCorrect (ensure_safe_first_click (initGame d ps) row.toNat col.toNat choice) := by
    intro hm
    have hnil : safe_spots (initGame d ps) row.toNat col.toNat ≠ [] :=
      safe_spots_nonempty _ _ _ hI.mines_lt hI.mines_count hm
    have hch2 : choice ∈ safe_spots (initGame d ps) row.toNat col.toNat := hch.resolve_left hnil
    obtain ⟨hc1, hc2, hc3, hc4⟩ := (mem_safe_spots _ _ _ choice).mp hch2
    rw [ensure_relocate _ _ _ _ hm hch2]
    refine ⟨?_, ?_, calc_adjacency _⟩
    · rw [calc_mine_iff]
      show (if (choice.1, choice.2) = choice then (-1 : Int)
        else if (choice.1, choice.2) = (row.toNat, col.toNat) then 0
        else (initGame d ps).board choice.1 choice.2) = -1
      rw [if_pos rfl]
    · rw [Ne, calc_mine_iff]
      show ¬((if (row.toNat, col.toNat) = choice then (-1 : Int)
        else if (row.toNat, col.toNat) = (row.toNat, col.toNat) then 0
        else (initGame d ps).board row.toNat col.toNat) = -1)
      have hne : (row.toNat, col.toNat) ≠ choice := by
        intro he
        rcases hc4 with hx | hx
        · exact hx (by rw [← he])
        · exact hx (by rw [← he])
      rw [if_neg hne, if_pos rfl]
      omega
  refine ⟨?_, hreloc⟩
  intro hcon
  obtain ⟨hover2, hwon2⟩ := hcon
  have hg1 : ¬((initGame d ps).game_over = true ∨
      is_valid_position (initGame d ps) row col = false) := by
    intro hcase
    rcases hcase with hx | hx
    · exact Bool.noConfusion (show (false : Bool) = true from hx)
    · rw [hv] at hx
      exact Bool.noConfusion hx
  have hg2 : ¬((initGame d ps).revealed row.toNat col.toNat = true ∨
      (initGame d ps).flagged row.toNat col.toNat = true) := by
    intro hcase
    rcases hcase with hx | hx
    · exact Bool.noConfusion (show (false : Bool) = true from hx)
    · exact Bool.noConfusion (show (false : Bool) = true from hx)
  unfold reveal_cell at hover2 hwon2
  rw [if_neg hg1, if_neg hg2] at hover2 hwon2
  by_cases h3 : (after_safety (initGame d ps) row col choice).board row.toNat col.toNat = -1
  · unfold after_safety at h3
    split at h3
    · rename_i hcond
      exact (hreloc hcond.2).2.1 h3
    · rename_i hcond
      have hx : (initGame d ps).board row.toNat col.toNat = -1 := h3
      exact hcond ⟨rfl, hx⟩
  · rw [if_neg h3] at hover2 hwon2
    unfold check_win_condition at hover2 hwon2
    by_cases h4 : (revealedCount (flood_fill
          ((initGame d ps).rows * (initGame d ps).cols + 1)
          (after_safety (initGame d ps) row col choice) row col) : Int)
        = ((flood_fill ((initGame d ps).rows * (initGame d ps).cols + 1)
            (after_safety (initGame d ps) row col choice) row col).rows : Int)
          * ((flood_fill ((initGame d ps).rows * (initGame d ps).cols + 1)
            (after_safety (initGame d ps) row col choice) row col).cols : Int)
          - ((flood_fill ((initGame d ps).rows * (initGame d ps).cols + 1)
            (after_safety (initGame d ps) row col choice) row col).mines : Int)
    · rw [if_pos h4] at hwon2
      exact Bool.noConfusion (show (true : Bool) = false from hwon2)
    · rw [if_neg h4] at hover2
      have hx : (flood_fill ((initGame d ps).rows * (initGame d ps).cols + 1)
          (after_safety (initGame d ps) row col choice) row col).game_over = true := hover2
      rw [(ff_frame ((initGame d ps).rows * (initGame d ps).cols + 1)
          (after_safety (initGame d ps) row col choice) row col).over_eq,
        after_safety_over] at hx
      exact Bool.noConfusion (show (false : Bool) = true from hx)

/-- Witness for C4: easy tier, sample `exMines`, first click on the mine at
(0, 2) with relocation choice (0, 0): the game is not lost, the mine moved to
(0, 0), and the clicked cell is no longer a mine. -/
theorem C4_witness :
    ¬((reveal_cell (initGame Difficulty.easy exMines) 0 2 (0, 0)).2.game_over = true ∧
      (reveal_cell (initGame Difficulty.easy exMines) 0 2 (0, 0)).2.game_won = false) ∧
    (ensure_safe_first_click (initGame Difficulty.easy exMines) 0 2 (0, 0)).board 0 0 = -1 ∧
    (ensure_safe_first_click (initGame Difficulty.easy exMines) 0 2 (0, 0)).board 0 2 ≠ -1 := by
  have h := C4_first_move_safety Difficulty.easy exMines 0 2 (0, 0) (by decide) (by decide)
    (Or.inr (by decide))
  have h2 := h.2 (by decide)
  exact ⟨h.1, h2.1, h2.2.1⟩
